import Mathlib

/-!
Verification development for the munro-scout repository.

The repository ships a React/Chakra client (dashboard, chat tab, GPX map
view) that talks to a Flask API.  The client code under `client/src` is
embedded directly.  The server-side retrieval pipeline (intent extraction,
lexical/tag search, location-ranked search, routing, response composition)
is described by the specification and the README but its Python sources are
not part of the shown files; those components are modelled from the spec,
as marked on each definition.

JavaScript strings are embedded as `List Char` (with `String` wrappers at
the boundaries); JavaScript numbers on the data paths used here are
embedded as `ℚ`.
-/

namespace MunroScout

/-! ## Character and string helpers (embedding of the JS string operations) -/

/-- Lowercase a single ASCII character, as `String.prototype.toLowerCase`
does on the ASCII range used by the client code. -/
def lowerChar (c : Char) : Char :=
  if 'A' ≤ c ∧ c ≤ 'Z' then Char.ofNat (c.toNat + 32) else c

/-- Lowercase a character list. -/
def toLowerL (l : List Char) : List Char := l.map lowerChar

/-- Whitespace test used by the embedding of `String.prototype.trim`. -/
def isWs (c : Char) : Bool :=
  c = ' ' ∨ c = '\t' ∨ c = '\n' ∨ c = '\r'

/-- Embedding of `String.prototype.trim`: drop whitespace on both ends. -/
def trimL (l : List Char) : List Char :=
  ((l.dropWhile isWs).reverse.dropWhile isWs).reverse

/-- Token characters for the deterministic text passes: ASCII letters and
digits (lowercased input). -/
def isTokenChar (c : Char) : Bool :=
  ('a' ≤ c ∧ c ≤ 'z') ∨ ('A' ≤ c ∧ c ≤ 'Z') ∨ ('0' ≤ c ∧ c ≤ '9')

/-- Split a character list into maximal runs of token characters.
`cur` accumulates the current (reversed) run. -/
def splitToksAux : List Char → List Char → List (List Char)
  | [], cur => if cur = [] then [] else [cur.reverse]
  | c :: rest, cur =>
    if isTokenChar c then splitToksAux rest (c :: cur)
    else if cur = [] then splitToksAux rest []
    else cur.reverse :: splitToksAux rest []

/-- Tokenize a character list. -/
def splitToks (l : List Char) : List (List Char) := splitToksAux l []

/-- Numeric value of a digit character, if any. -/
def digitVal (c : Char) : Option Nat :=
  if '0' ≤ c ∧ c ≤ '9' then some (c.toNat - 48) else none

/-- Accumulating decimal reader. -/
def digitsToNatAux : List Char → Nat → Option Nat
  | [], acc => some acc
  | c :: rest, acc =>
    match digitVal c with
    | some d => digitsToNatAux rest (acc * 10 + d)
    | none => none

/-- Read a non-empty all-digit token as a natural number. -/
def digitsToNat : List Char → Option Nat
  | [] => none
  | c :: rest => digitsToNatAux (c :: rest) 0

/-! ## Insertion sort (used by the modelled ranking; structural so that
concrete runs reduce definitionally) -/

/-- Insert `a` in front of the first element `b` with `le a b = true`. -/
def insertLe {α : Type} (le : α → α → Bool) (a : α) : List α → List α
  | [] => [a]
  | b :: rest => if le a b then a :: b :: rest else b :: insertLe le a rest

/-- Insertion sort by the boolean relation `le`. -/
def sortLe {α : Type} (le : α → α → Bool) : List α → List α
  | [] => []
  | a :: rest => insertLe le a (sortLe le rest)

/-! ## Client data model (embedding of `client/src/types/munro.ts`) -/

/-- Embedding of the client `Munro` interface: numeric route attributes as
rationals, optional string fields as `Option String`. -/
structure Munro where
  id : Nat
  name : String
  summary : String
  distance : ℚ
  time : ℚ
  grade : ℚ
  bog : ℚ
  start : String
  gpx_file : Option String := none
  url : Option String := none
  route_url : Option String := none
  normalized_name : Option String := none
deriving DecidableEq

/-! ## Dashboard statistics (embedding of `App.tsx`, `App.stats`) -/

/-- Embedding of the JavaScript expression `munros.length || 1` used as the
divisor of every average in `App.stats`. -/
def jsDivisor (n : Nat) : Nat := if n = 0 then 1 else n

/-- The record computed by `App.stats`. -/
structure Stats where
  total : Nat
  avgDistance : ℚ
  avgTime : ℚ
  avgGrade : ℚ
  avgBog : ℚ
deriving DecidableEq

/-- Embedding of `App.stats` in `client/src/App.tsx`: each average is
`munros.reduce((sum, m) => sum + field, 0) / (munros.length || 1)`. -/
def stats (munros : List Munro) : Stats :=
  { total := munros.length
    avgDistance := (munros.foldl (fun s m => s + m.distance) 0) / (jsDivisor munros.length : ℚ)
    avgTime := (munros.foldl (fun s m => s + m.time) 0) / (jsDivisor munros.length : ℚ)
    avgGrade := (munros.foldl (fun s m => s + m.grade) 0) / (jsDivisor munros.length : ℚ)
    avgBog := (munros.foldl (fun s m => s + m.bog) 0) / (jsDivisor munros.length : ℚ) }

/-! ## GPX coordinate extraction (embedding of `client/src/utils/gpx.ts`) -/

/-- A `trkpt`/`rtept` element as seen by `extractGpxCoords`: the `lat` and
`lon` attributes, if present, with their `parseFloat` value embedded as a
rational. -/
structure GpxPoint where
  lat : Option ℚ := none
  lon : Option ℚ := none
deriving DecidableEq

/-- Boolean success test for `Except` results. -/
def isOkE {ε α : Type} : Except ε α → Bool
  | .ok _ => true
  | .error _ => false

/-- The result of `DOMParser.parseFromString` as observed by
`extractGpxCoords`: either a parse error (`parsererror` element present) or
a document carrying its `trkpt` and `rtept` elements in document order. -/
inductive GpxXml where
  | malformed
  | doc (trkpts : List GpxPoint) (rtepts : List GpxPoint)
deriving DecidableEq

/-- Coordinate pair of a point: `parseFloat(pt.getAttribute("lat") || "0")`,
so a missing attribute reads as `0`. -/
def pointCoords (p : GpxPoint) : ℚ × ℚ := (p.lat.getD 0, p.lon.getD 0)

/-- Embedding of `extractGpxCoords`: error on malformed XML; otherwise the
`trkpt` elements if any exist, else the `rtept` elements if any exist, else
an error. -/
def extractGpxCoords : GpxXml → Except String (List (ℚ × ℚ))
  | .malformed => .error "Invalid GPX XML"
  | .doc trkpts rtepts =>
    if trkpts.length > 0 then .ok (trkpts.map pointCoords)
    else if rtepts.length > 0 then .ok (rtepts.map pointCoords)
    else .error "No track/route points found in GPX"

/-! ## GPX URL selection (embedding of `client/src/hooks/useSelectedGpxUrl.ts`) -/

/-- Embedding of `FALLBACK_GPX` from `client/src/config/constants` (the value
shown in the repository is `"/a-mharconaich.gpx"`). -/
def FALLBACK_GPX : String := "/a-mharconaich.gpx"

/-- Embedding of the test `/^https?:\/\//i.test(raw)`. -/
def isHttpAbsL (l : List Char) : Bool :=
  "http://".data.isPrefixOf (toLowerL l) || "https://".data.isPrefixOf (toLowerL l)

/-- Embedding of `raw.startsWith("/")`. -/
def headIsSlash : List Char → Bool
  | '/' :: _ => true
  | _ => false

/-- What may follow the extension in `/\.(gpx|xml)(\?|#|$)/i`: end of input,
`?`, or `#`. -/
def extTail : List Char → Bool
  | [] => true
  | '?' :: _ => true
  | '#' :: _ => true
  | _ => false

/-- Does the list start with `.gpx` or `.xml` followed by a valid tail?
(Callers pass a lowercased list, matching the `i` flag.) -/
def extHere : List Char → Bool
  | '.' :: 'g' :: 'p' :: 'x' :: rest => extTail rest
  | '.' :: 'x' :: 'm' :: 'l' :: rest => extTail rest
  | _ => false

/-- Embedding of `/\.(gpx|xml)(\?|#|$)/i.test(s)` on an already-lowercased
list: the pattern matches at some position. -/
def hasExtL : List Char → Bool
  | [] => false
  | c :: rest => extHere (c :: rest) || hasExtL rest

/-- The extension test on a `String` (lowercases first, as the `i` flag does). -/
def hasGpxXmlExt (s : String) : Bool := hasExtL (toLowerL s.data)

/-- Drop all leading `/` characters (the `\/*` part of `^\.?\/*`). -/
def dropSlashes : List Char → List Char
  | '/' :: rest => dropSlashes rest
  | l => l

/-- Embedding of `raw.replace(/^\.?\/*/, "")`: one optional leading dot,
then any run of slashes. -/
def stripDotSlash : List Char → List Char
  | '.' :: rest => dropSlashes rest
  | l => dropSlashes l

/-- Embedding of `/^gpx_files\//i.test(fname)`. -/
def hasGpxFilesPref (l : List Char) : Bool :=
  "gpx_files/".data.isPrefixOf (toLowerL l)

/-- The normalization applied to a relative `gpx_file` value: strip `./`,
ensure the `gpx_files/` prefix, append `.gpx` when no `.gpx`/`.xml`
extension is present. -/
def normalizeRelGpx (raw : List Char) : List Char :=
  let f1 := stripDotSlash raw
  let f2 := if hasGpxFilesPref f1 then f1 else "gpx_files/".data ++ f1
  if hasExtL (toLowerL f2) then f2 else f2 ++ ".gpx".data

/-- Word characters of the JavaScript `\w` class. -/
def isWordChar (c : Char) : Bool :=
  ('a' ≤ c ∧ c ≤ 'z') ∨ ('A' ≤ c ∧ c ≤ 'Z') ∨ ('0' ≤ c ∧ c ≤ '9') ∨ c = '_'

/-- Embedding of `.replace(/[^\w]+/g, "-")`: each maximal run of non-word
characters becomes a single dash.  The flag records whether the previous
character was part of such a run. -/
def collapseNonWord : List Char → Bool → List Char
  | [], _ => []
  | c :: rest, inRun =>
    if isWordChar c then c :: collapseNonWord rest false
    else if inRun then collapseNonWord rest true
    else '-' :: collapseNonWord rest true

/-- Remove one leading dash (half of `.replace(/(^-|-$)/g, "")`). -/
def stripLeadDash : List Char → List Char
  | '-' :: rest => rest
  | l => l

/-- Embedding of the slug built from `selected.name`:
`name.toLowerCase().replace(/[^\w]+/g, "-").replace(/(^-|-$)/g, "")`. -/
def slugifyName (s : String) : List Char :=
  (stripLeadDash ((stripLeadDash (collapseNonWord (toLowerL s.data) false)).reverse)).reverse

/-- Embedding of
`selected.normalized_name?.trim() || slug(selected.name)`: the trimmed
`normalized_name` when present and non-blank, else the name slug. -/
def baseOf (m : Munro) : List Char :=
  match m.normalized_name with
  | some nn => if trimL nn.data = [] then slugifyName m.name else trimL nn.data
  | none => slugifyName m.name

/-- Embedding of `useSelectedGpxUrl` from
`client/src/hooks/useSelectedGpxUrl.ts`. -/
def useSelectedGpxUrl (selected : Option Munro) : String :=
  match selected with
  | none => FALLBACK_GPX
  | some m =>
    let raw := trimL ((m.gpx_file.getD "").data)
    if raw = [] then
      if baseOf m = [] then FALLBACK_GPX
      else String.mk ("/gpx_files/".data ++ baseOf m ++ ".gpx".data)
    else if isHttpAbsL raw then
      if hasExtL (toLowerL raw) then String.mk raw else FALLBACK_GPX
    else if headIsSlash raw then
      if hasExtL (toLowerL raw) then String.mk raw else FALLBACK_GPX
    else
      String.mk ('/' :: normalizeRelGpx raw)

/-! ## Chat event plumbing (embedding of `ChatTab.submit` and the
`munro-chat-assistant` listener in `App`) -/

/-- Chat message roles. -/
inductive Role where
  | user
  | assistant
deriving DecidableEq

/-- Embedding of `ChatRouteLink` (`tags` is optional). -/
structure RouteLink where
  id : Nat
  name : String
  tags : Option (List String) := none
deriving DecidableEq

/-- The `/api/chat` JSON body as read by `ChatTab.submit`: `answer`, `steps`
and `routes` may each be absent.  The `steps` payload is carried as an
uninterpreted serialized value. -/
structure ChatData where
  answer : Option String := none
  steps : Option String := none
  routes : Option (List RouteLink) := none
deriving DecidableEq

/-- The `detail` object of a `munro-chat-assistant` `CustomEvent`. -/
structure EventDetail where
  content : Option String := none
  steps : Option String := none
  routes : Option (List RouteLink) := none
deriving DecidableEq

/-- A dispatched window event: its name and detail. -/
structure ChatEvent where
  name : String
  detail : EventDetail
deriving DecidableEq

/-- Outcome of the `fetch` to `/api/chat` inside `ChatTab.submit`: a parsed
JSON body, or a thrown error (non-ok HTTP status or network failure). -/
inductive FetchOutcome where
  | ok (data : ChatData)
  | fail (message : String)
deriving DecidableEq

/-- Embedding of the client `ChatMessage` type. -/
structure ChatMessage where
  role : Role
  content : String
  steps : Option String := none
  routes : Option (List RouteLink) := none
deriving DecidableEq

/-- `String.prototype.trim` on `String`. -/
def trimS (s : String) : String := String.mk (trimL s.data)

/-- Embedding of `(data?.answer ?? "").trim() || "(no answer)"`. -/
def processAnswer (a : Option String) : String :=
  let t := trimS (a.getD "")
  if t = "" then "(no answer)" else t

/-- Embedding of the event dispatches in `ChatTab.submit`: on a response,
one `munro-chat-assistant` event carrying the processed answer, the steps
and the routes; on a thrown error, one `munro-chat-assistant` event with an
apology message only. -/
def submitEvents : FetchOutcome → List ChatEvent
  | .ok d =>
    [⟨"munro-chat-assistant",
      ⟨some (processAnswer d.answer), d.steps, some (d.routes.getD [])⟩⟩]
  | .fail _ =>
    [⟨"munro-chat-assistant",
      ⟨some "Sorry — I couldn’t reach the server.", none, none⟩⟩]

/-- The assistant message built by the `App` listener from an event detail:
`{ role: "assistant", content: content || "", steps, routes }`. -/
def assistantMessageOf (detail : EventDetail) : ChatMessage :=
  ⟨.assistant, detail.content.getD "", detail.steps, detail.routes⟩

/-- Embedding of the `munro-chat-assistant` listener in `App`:
`setMessages((prev) => [...prev, assistantMessage])`. -/
def assistantHandler (detail : EventDetail) (msgs : List ChatMessage) : List ChatMessage :=
  msgs ++ [assistantMessageOf detail]

/-! ## Retrieval pipeline data model

The server-side retrieval pipeline (`server/` in the repository layout:
routes, services, utils) is not among the shown files; the definitions in
this section are modelled from the specification, as their doc comments
state. -/

/-- Modelled from the spec: the `HillRecord` data model (§3) of the missing
server corpus — identifier, text fields, numeric attributes, attached tags,
optional coordinates. -/
structure HillRecord where
  id : Nat
  name : String
  summary : String := ""
  description : String := ""
  distance : ℚ
  time : ℚ
  grade : ℚ
  bog : ℚ
  tags : List String := []
  coords : Option (ℚ × ℚ) := none
deriving DecidableEq

/-- Modelled from the spec: the `QueryIntent` data model (§3, §6) of the
missing intent-extraction code — optional free text, tag sets, numeric
bounds, location and limit. -/
structure QueryIntent where
  query : Option String := none
  include_tags : List String := []
  exclude_tags : List String := []
  distance_min_km : Option ℚ := none
  distance_max_km : Option ℚ := none
  time_min_h : Option ℚ := none
  time_max_h : Option ℚ := none
  grade_min : Option ℚ := none
  grade_max : Option ℚ := none
  bog_min : Option ℚ := none
  bog_max : Option ℚ := none
  location : Option String := none
  limit : Option Nat := none
deriving DecidableEq

/-- The two retrieval engines of the spec (§4.2, §4.3). -/
inductive Engine where
  | lexical
  | locationRanked
deriving DecidableEq

/-- Modelled from the spec: the trace of a `SearchResult` (§3) — which
engine ran, which lexical tier accepted (0 when none), whether the
location→lexical fallback occurred, and the executed query text. -/
structure Trace where
  engine : Engine
  tier : Nat
  fallback : Bool
  executed : String
deriving DecidableEq

/-- Modelled from the spec: a `SearchResult` (§3) — ordered records plus
the trace of how they were produced. -/
structure SearchResult where
  records : List HillRecord
  trace : Trace
deriving DecidableEq

/-! ## Tag sanitation policy (modelled from the spec, §4.5) -/

/-- Modelled from the spec: normalization of one externally supplied tag of
the missing tag-sanitation helper — trimmed then lowercased. -/
def normalizeTag (s : String) : String := String.mk (toLowerL (trimL s.data))

/-- Modelled from the spec: normalize, deduplicate and intersect an
external tag collection with the ontology (§4.5). -/
def intersectOntology (ontology raw : List String) : List String :=
  ((raw.map normalizeTag).dedup).filter (fun t => decide (t ∈ ontology))

/-- Modelled from the spec: the missing tag sanitation policy (§4.5) — the
intersected set, unless it covers more than 70% of the ontology, in which
case the collection is discarded entirely and the warning flag is set. -/
def sanitizeTags (ontology raw : List String) : List String × Bool :=
  let cleaned := intersectOntology ontology raw
  if 10 * cleaned.length > 7 * ontology.length then ([], true) else (cleaned, false)

/-! ## Deterministic intent passes (modelled from the spec, §4.1) -/

/-- Modelled from the spec: numeric bounds recovered by the deterministic
numeric-phrase pass of the missing Intent Extractor. -/
structure DetBounds where
  time_min : Option ℚ := none
  time_max : Option ℚ := none
  dist_min : Option ℚ := none
  dist_max : Option ℚ := none
  grade_min : Option ℚ := none
deriving DecidableEq

/-- Hour unit words recognized by the numeric-phrase pass. -/
def isHourUnit (t : List Char) : Bool :=
  t = "hours".data ∨ t = "hour".data ∨ t = "hrs".data ∨ t = "h".data

/-- Kilometre unit words recognized by the numeric-phrase pass. -/
def isKmUnit (t : List Char) : Bool :=
  t = "km".data ∨ t = "kilometres".data ∨ t = "kilometers".data

/-- Modelled from the spec: the scan of the missing numeric-phrase pass
over lowercased tokens, fuelled by the token count so that concrete runs
reduce definitionally.  Recognizes `under N hours`/`under N km`,
`between A and B km` (and hours), and `at least grade N` (§4.1). -/
def scanNumF : Nat → List (List Char) → DetBounds → DetBounds
  | 0, _, b => b
  | _ + 1, [], b => b
  | fuel + 1, t :: rest, b =>
    if t = "under".data then
      match rest with
      | n :: u :: rest2 =>
        match digitsToNat n with
        | some k =>
          if isHourUnit u then scanNumF fuel rest2 { b with time_max := some (k : ℚ) }
          else if isKmUnit u then scanNumF fuel rest2 { b with dist_max := some (k : ℚ) }
          else scanNumF fuel rest b
        | none => scanNumF fuel rest b
      | _ => scanNumF fuel rest b
    else if t = "between".data then
      match rest with
      | a :: w :: b2 :: u :: rest2 =>
        if w = "and".data then
          match digitsToNat a, digitsToNat b2 with
          | some x, some y =>
            if isKmUnit u then
              scanNumF fuel rest2 { b with dist_min := some (x : ℚ), dist_max := some (y : ℚ) }
            else if isHourUnit u then
              scanNumF fuel rest2 { b with time_min := some (x : ℚ), time_max := some (y : ℚ) }
            else scanNumF fuel rest b
          | _, _ => scanNumF fuel rest b
        else scanNumF fuel rest b
      | _ => scanNumF fuel rest b
    else if t = "at".data then
      match rest with
      | w :: g :: n :: rest2 =>
        if w = "least".data ∧ g = "grade".data then
          match digitsToNat n with
          | some k => scanNumF fuel rest2 { b with grade_min := some (k : ℚ) }
          | none => scanNumF fuel rest b
        else scanNumF fuel rest b
      | _ => scanNumF fuel rest b
    else scanNumF fuel rest b

/-- Lowercased tokens of a message. -/
def tokensLower (s : String) : List (List Char) := splitToks (toLowerL s.data)

/-- Modelled from the spec: the deterministic numeric-phrase pass of the
missing Intent Extractor applied to a whole message (§4.1). -/
def detBounds (msg : String) : DetBounds :=
  scanNumF (tokensLower msg).length (tokensLower msg) {}

/-- Location keywords of the location heuristic (`near X`, `around X`,
`from X`). -/
def isLocKeyword (t : List Char) : Bool :=
  toLowerL t = "near".data ∨ toLowerL t = "around".data ∨ toLowerL t = "from".data

/-- Does a (case-preserving) token start with a capital letter? -/
def isCapTok : List Char → Bool
  | c :: _ => 'A' ≤ c ∧ c ≤ 'Z'
  | [] => false

/-- Join tokens with single spaces. -/
def joinSpace : List (List Char) → List Char
  | [] => []
  | [t] => t
  | t :: rest => t ++ ' ' :: joinSpace rest

/-- Modelled from the spec: the regex/phrase location heuristic of the
missing Intent Extractor (§4.1) — after a location keyword, take the
following run of capitalized tokens as the place name. -/
def locScan : List (List Char) → Option String
  | [] => none
  | t :: rest =>
    if isLocKeyword t then
      if rest.takeWhile isCapTok = [] then locScan rest
      else some (String.mk (joinSpace (rest.takeWhile isCapTok)))
    else locScan rest

/-- The location heuristic applied to a whole message. -/
def locationHeuristic (msg : String) : Option String := locScan (splitToks msg.data)

/-- Modelled from the spec: the missing Intent Extractor (§4.1).  The model
output (already a structured intent, `none` when the model call failed or
timed out) is tag-sanitized; the two deterministic passes are applied on
top, with deterministic numeric parses and the location heuristic taking
precedence over model-proposed fields.  On model failure the base intent is
just the raw message as free text. -/
def extractIntent (ontology : List String) (modelOut : Option QueryIntent)
    (msg : String) : QueryIntent :=
  let base : QueryIntent :=
    match modelOut with
    | some mi =>
      { mi with
        include_tags := (sanitizeTags ontology mi.include_tags).1
        exclude_tags := (sanitizeTags ontology mi.exclude_tags).1 }
    | none => { query := some msg }
  { base with
    time_max_h := (detBounds msg).time_max.orElse (fun _ => base.time_max_h)
    time_min_h := (detBounds msg).time_min.orElse (fun _ => base.time_min_h)
    distance_max_km := (detBounds msg).dist_max.orElse (fun _ => base.distance_max_km)
    distance_min_km := (detBounds msg).dist_min.orElse (fun _ => base.distance_min_km)
    grade_min := (detBounds msg).grade_min.orElse (fun _ => base.grade_min)
    location := (locationHeuristic msg).orElse (fun _ => base.location) }

/-! ## Lexical/Tag Search Engine (modelled from the spec, §4.2) -/

/-- One numeric hard bound: the value lies within the optional lower and
upper limits. -/
def withinBound (v : ℚ) (lo hi : Option ℚ) : Bool :=
  (match lo with
    | some a => decide (a ≤ v)
    | none => true)
  && (match hi with
    | some b => decide (v ≤ b)
    | none => true)

/-- Modelled from the spec: the numeric hard filters (§4.2, §4.3) of the
missing search services — all eight optional bounds must hold. -/
def passesBounds (i : QueryIntent) (r : HillRecord) : Bool :=
  withinBound r.distance i.distance_min_km i.distance_max_km
  && withinBound r.time i.time_min_h i.time_max_h
  && withinBound r.grade i.grade_min i.grade_max
  && withinBound r.bog i.bog_min i.bog_max

/-- Modelled from the spec: the tag hard filters — every include tag
attached, no exclude tag attached. -/
def passesTags (i : QueryIntent) (r : HillRecord) : Bool :=
  i.include_tags.all (fun t => decide (t ∈ r.tags))
  && i.exclude_tags.all (fun t => decide (t ∉ r.tags))

/-- Lowercased tokens of the free-text query. -/
def queryTerms (i : QueryIntent) : List (List Char) := tokensLower (i.query.getD "")

/-- Lowercased tokens of a record's searchable text (name, summary,
description). -/
def recordTokens (r : HillRecord) : List (List Char) :=
  tokensLower (r.name ++ " " ++ r.summary ++ " " ++ r.description)

/-- Modelled from the spec: tier-1 full-text match — every query term
occurs as a token of the record text. -/
def tier1Match (i : QueryIntent) (r : HillRecord) : Bool :=
  (queryTerms i).all (fun t => decide (t ∈ recordTokens r))

/-- Substring test on character lists. -/
def hasSub (t : List Char) : List Char → Bool
  | [] => decide (t = [])
  | c :: rest => t.isPrefixOf (c :: rest) || hasSub t rest

/-- Modelled from the spec: tier-2 approximate match — every query term is
substring-related to some record token. -/
def tier2Match (i : QueryIntent) (r : HillRecord) : Bool :=
  (queryTerms i).all (fun t => (recordTokens r).any (fun w => hasSub t w || hasSub w t))

/-- Modelled from the spec: the text relevance score — occurrences of query
terms among the record tokens. -/
def relevance (i : QueryIntent) (r : HillRecord) : Nat :=
  ((recordTokens r).filter (fun w => decide (w ∈ queryTerms i))).length

/-- Count of include tags matched by a record. -/
def includeMatches (i : QueryIntent) (r : HillRecord) : Nat :=
  (i.include_tags.filter (fun t => decide (t ∈ r.tags))).length

/-- Modelled from the spec: the lexical ranking order (§4.2) — relevance
descending, then matched include-tag count descending, then identifier
ascending. -/
def rankLe (i : QueryIntent) (a b : HillRecord) : Bool :=
  decide (relevance i b < relevance i a)
  || (decide (relevance i a = relevance i b)
      && (decide (includeMatches i b < includeMatches i a)
          || (decide (includeMatches i a = includeMatches i b) && decide (a.id ≤ b.id))))

/-- The hard-filtered candidate pool (numeric and tag filters). -/
def boundFilter (i : QueryIntent) (corpus : List HillRecord) : List HillRecord :=
  corpus.filter (fun r => passesBounds i r && passesTags i r)

/-- Modelled from the spec: the missing `search_core` service (§4.2) — the
tiered lexical strategy.  Tier 1: full-text ∩ tags ∩ bounds; tier 2:
approximate text with the same filters; tier 3: tags/bounds alone when tag
constraints exist; otherwise an empty result. -/
def search_core (corpus : List HillRecord) (i : QueryIntent) : SearchResult :=
  let base := boundFilter i corpus
  let t1 := base.filter (tier1Match i)
  if t1 ≠ [] then ⟨sortLe (rankLe i) t1, ⟨.lexical, 1, false, i.query.getD ""⟩⟩
  else
    let t2 := base.filter (tier2Match i)
    if t2 ≠ [] then ⟨sortLe (rankLe i) t2, ⟨.lexical, 2, false, i.query.getD ""⟩⟩
    else if i.include_tags ≠ [] then ⟨sortLe (rankLe i) base, ⟨.lexical, 3, false, ""⟩⟩
    else ⟨[], ⟨.lexical, 0, false, i.query.getD ""⟩⟩

/-! ## Location-Ranked Search Engine and Query Router (modelled from the
spec, §4.3–§4.4) -/

/-- Modelled from the spec: distance surrogate of the missing
`search_by_location_core` service.  The spec prescribes haversine
great-circle distance; over rational coordinates this model uses the
squared coordinate distance, which the claims never inspect. -/
def geoDist (a b : ℚ × ℚ) : ℚ := (a.1 - b.1) ^ 2 + (a.2 - b.2) ^ 2

/-- Modelled from the spec: the location ranking order (§4.3) — distance
ascending; among exact distance ties more matched optional tags first, then
identifier ascending (tags only break near-ties). -/
def locRankLe (c0 : ℚ × ℚ) (i : QueryIntent) (a b : HillRecord) : Bool :=
  decide (geoDist c0 (a.coords.getD (0, 0)) < geoDist c0 (b.coords.getD (0, 0)))
  || (decide (geoDist c0 (a.coords.getD (0, 0)) = geoDist c0 (b.coords.getD (0, 0)))
      && (decide (includeMatches i b < includeMatches i a)
          || (decide (includeMatches i a = includeMatches i b) && decide (a.id ≤ b.id))))

/-- The intent with its location removed (the non-location parts). -/
def stripLocation (i : QueryIntent) : QueryIntent := { i with location := none }

/-- Modelled from the spec: the missing `search_by_location_core` service
(§4.3).  Geocode the location; on success rank the hard-filtered records
with coordinates by distance; on geocoding failure fall back to the
Lexical/Tag engine on the location-stripped intent and mark the trace. -/
def search_by_location_core (geocode : String → Option (ℚ × ℚ))
    (corpus : List HillRecord) (i : QueryIntent) : SearchResult :=
  match i.location with
  | none => search_core corpus i
  | some loc =>
    match geocode loc with
    | some c0 =>
      ⟨sortLe (locRankLe c0 i) ((boundFilter i corpus).filter (fun r => r.coords.isSome)),
        ⟨.locationRanked, 0, false, loc⟩⟩
    | none =>
      ⟨(search_core corpus (stripLocation i)).records,
        ⟨.lexical, (search_core corpus (stripLocation i)).trace.tier, true,
          (search_core corpus (stripLocation i)).trace.executed⟩⟩

/-- Is the intent's location present and non-empty? -/
def locationPresent (i : QueryIntent) : Bool :=
  match i.location with
  | some s => decide (s ≠ "")
  | none => false

/-- Modelled from the spec: the missing Query Router (§4.4) — pure
dispatch on the location signal, no other logic. -/
def route (i : QueryIntent) : Engine :=
  if locationPresent i then .locationRanked else .lexical

/-- Modelled from the spec: running the engine chosen by the router. -/
def runSearch (geocode : String → Option (ℚ × ℚ)) (corpus : List HillRecord)
    (i : QueryIntent) : SearchResult :=
  match route i with
  | .locationRanked => search_by_location_core geocode corpus i
  | .lexical => search_core corpus i

/-! ## Response Composer (modelled from the spec, §4.5) -/

/-- Modelled from the spec: the effective result limit of the missing
Response Composer — intent limit, default 8, maximum 20 enforced. -/
def effectiveLimit (i : QueryIntent) : Nat := min (i.limit.getD 8) 20

/-- A lightweight result entry of the `steps` block. -/
structure ResultEntry where
  id : Nat
  name : String
  tags : List String
  summary : String
deriving DecidableEq

/-- Modelled from the spec: the `steps` trace object of the response (§6). -/
structure StepsBlock where
  intent : QueryIntent
  mode : Engine
  executed : String
  fallback : Bool
  results : List ResultEntry
deriving DecidableEq

/-- Modelled from the spec: the uniform JSON response shape (§6). -/
structure ChatResponse where
  answer : String
  routes : List RouteLink
  steps : StepsBlock
deriving DecidableEq

/-- Include tags matched by a record. -/
def matchedTags (i : QueryIntent) (r : HillRecord) : List String :=
  i.include_tags.filter (fun t => decide (t ∈ r.tags))

/-- Modelled from the spec: the missing Response Composer (§4.5) — top-K
records (K the effective limit), a deterministic templated summary with a
clear no-matches message, route links, and the always-present steps
block. -/
def compose (sr : SearchResult) (i : QueryIntent) : ChatResponse :=
  { answer :=
      if (sr.records.take (effectiveLimit i)).isEmpty then "No matching routes found."
      else "Found " ++ toString (sr.records.take (effectiveLimit i)).length
        ++ " matching routes."
    routes := (sr.records.take (effectiveLimit i)).map
      (fun r => ⟨r.id, r.name, some (matchedTags i r)⟩)
    steps := ⟨i, sr.trace.engine, sr.trace.executed, sr.trace.fallback,
      (sr.records.take (effectiveLimit i)).map (fun r => ⟨r.id, r.name, r.tags, r.summary⟩)⟩ }

/-- Modelled from the spec: the missing request handler — run the routed
search and compose; per the error taxonomy (§7) every geocoding or model
failure is handled inside the pipeline, so the only `Except` errors would
be internal failures, which this model has none of. -/
def handleRequest (geocode : String → Option (ℚ × ℚ)) (corpus : List HillRecord)
    (i : QueryIntent) : Except String ChatResponse :=
  .ok (compose (runSearch geocode corpus i) i)

theorem mem_insertLe {α : Type} (le : α → α → Bool) (a x : α) (l : List α) :
    x ∈ insertLe le a l ↔ x = a ∨ x ∈ l := by
  induction l with
  | nil => simp [insertLe]
  | cons b rest ih =>
    by_cases h : le a b = true
    · simp [insertLe, h]
    · simp [insertLe, h, ih]
      tauto

theorem mem_sortLe {α : Type} (le : α → α → Bool) (x : α) (l : List α) :
    x ∈ sortLe le l ↔ x ∈ l := by
  induction l with
  | nil => simp [sortLe]
  | cons a rest ih => simp [sortLe, mem_insertLe, ih]

theorem hasExtL_cons (c : Char) (rest : List Char) :
    hasExtL (c :: rest) = (extHere (c :: rest) || hasExtL rest) := rfl

theorem hasExtL_append_gpx (l : List Char) : hasExtL (l ++ ".gpx".data) = true := by
  induction l with
  | nil => decide
  | cons c rest ih => rw [List.cons_append, hasExtL_cons, ih, Bool.or_true]

theorem toLowerL_append (a b : List Char) :
    toLowerL (a ++ b) = toLowerL a ++ toLowerL b := List.map_append _ a b

theorem toLowerL_gpx_ext : toLowerL ".gpx".data = ".gpx".data := by decide

theorem hasExtL_toLowerL_append_gpx (l : List Char) :
    hasExtL (toLowerL (l ++ ".gpx".data)) = true := by
  rw [toLowerL_append, toLowerL_gpx_ext]
  exact hasExtL_append_gpx _

theorem prefix_gpxFiles_ite (f1 : List Char) :
    "gpx_files/".data <+: toLowerL (if hasGpxFilesPref f1 then f1 else "gpx_files/".data ++ f1) := by
  cases hh : hasGpxFilesPref f1 with
  | true =>
    rw [if_pos rfl]
    exact List.isPrefixOf_iff_prefix.mp hh
  | false =>
    rw [if_neg (by simp), toLowerL_append]
    have hl : toLowerL "gpx_files/".data = "gpx_files/".data := by decide
    rw [hl]
    exact List.prefix_append _ _

theorem prefix_ite_ext (gp l : List Char) (h : gp <+: toLowerL l) :
    gp <+: toLowerL (if hasExtL (toLowerL l) then l else l ++ ".gpx".data) := by
  by_cases he : hasExtL (toLowerL l) = true
  · rwa [if_pos he]
  · rw [if_neg he, toLowerL_append]
    exact h.trans (List.prefix_append _ _)

theorem gpxFiles_prefix_normalizeRel (raw : List Char) :
    "gpx_files/".data <+: toLowerL (normalizeRelGpx raw) := by
  unfold normalizeRelGpx
  exact prefix_ite_ext _ _ (prefix_gpxFiles_ite (stripDotSlash raw))

theorem mk_ne_empty {l : List Char} (h : l ≠ []) : String.mk l ≠ "" := by
  intro he
  apply h
  have h2 := congrArg String.data he
  simpa using h2

theorem hasExtL_ite_ext (l : List Char) :
    hasExtL (toLowerL (if hasExtL (toLowerL l) then l else l ++ ".gpx".data)) = true := by
  by_cases he : hasExtL (toLowerL l) = true
  · rwa [if_pos he]
  · rw [if_neg he]
    exact hasExtL_toLowerL_append_gpx _

theorem hasExtL_toLower_normalizeRel (raw : List Char) :
    hasExtL (toLowerL (normalizeRelGpx raw)) = true := by
  unfold normalizeRelGpx
  exact hasExtL_ite_ext _

theorem mk_slash_wellformed (l : List Char) (h : hasExtL (toLowerL l) = true) :
    String.mk ('/' :: l) ≠ "" ∧ hasGpxXmlExt (String.mk ('/' :: l)) = true := by
  refine ⟨mk_ne_empty (by simp), ?_⟩
  show hasExtL (toLowerL ('/' :: l)) = true
  have hsl : lowerChar '/' = '/' := by decide
  rw [show toLowerL ('/' :: l) = lowerChar '/' :: toLowerL l from rfl, hsl, hasExtL_cons, h,
    Bool.or_true]

/-- C9: `extractGpxCoords` throws exactly when its input is malformed XML or
has neither `trkpt` nor `rtept` elements; otherwise it returns one
`[lat, lon]` pair per point in document order, taking `trkpt` elements
whenever any exist and `rtept` elements only when there are none, with a
missing `lat` or `lon` attribute read as `0`. -/
theorem c9_extractGpxCoords_errors_and_points (trkpts rtepts : List GpxPoint) :
    extractGpxCoords .malformed = .error "Invalid GPX XML"
    ∧ (isOkE (extractGpxCoords (.doc trkpts rtepts)) = true ↔ ¬(trkpts = [] ∧ rtepts = []))
    ∧ (trkpts ≠ [] →
        extractGpxCoords (.doc trkpts rtepts) = .ok (trkpts.map pointCoords))
    ∧ (trkpts = [] → rtepts ≠ [] →
        extractGpxCoords (.doc trkpts rtepts) = .ok (rtepts.map pointCoords))
    ∧ (∀ p : GpxPoint, pointCoords p = (p.lat.getD 0, p.lon.getD 0)) := by
  refine ⟨rfl, ?_, ?_, ?_, fun p => rfl⟩
  · cases trkpts <;> cases rtepts <;> simp [extractGpxCoords, isOkE]
  · intro h
    cases trkpts with
    | nil => exact absurd rfl h
    | cons a t => simp [extractGpxCoords]
  · intro h1 h2
    subst h1
    cases rtepts with
    | nil => exact absurd rfl h2
    | cons a t => simp [extractGpxCoords]

/-- Witness for C9 at concrete documents: a route-only document yields the
`rtept` coordinates (missing `lat` read as `0`), and an empty document is an
error. -/
theorem c9_extractGpxCoords_errors_and_points_witness :
    extractGpxCoords (.doc [] [⟨none, some 3⟩]) = .ok [((0 : ℚ), (3 : ℚ))]
    ∧ isOkE (extractGpxCoords (.doc ([] : List GpxPoint) [])) = false := by
  constructor
  · exact (c9_extractGpxCoords_errors_and_points [] [⟨none, some 3⟩]).2.2.2.1 rfl (by decide)
  · have h := (c9_extractGpxCoords_errors_and_points ([] : List GpxPoint) []).2.1
    simp at h
    simp [h]

theorem withinBound_le {v : ℚ} {lo hi : Option ℚ} (h : withinBound v lo hi = true) :
    (∀ q, lo = some q → q ≤ v) ∧ (∀ q, hi = some q → v ≤ q) := by
  unfold withinBound at h
  rw [Bool.and_eq_true] at h
  constructor
  · intro q hq
    rw [hq] at h
    exact of_decide_eq_true h.1
  · intro q hq
    rw [hq] at h
    exact of_decide_eq_true h.2

theorem mem_search_core_boundFilter {corpus : List HillRecord} {i : QueryIntent}
    {r : HillRecord} (h : r ∈ (search_core corpus i).records) :
    r ∈ boundFilter i corpus := by
  unfold search_core at h
  by_cases h1 : (boundFilter i corpus).filter (tier1Match i) ≠ []
  · rw [if_pos h1] at h
    have h2 : r ∈ sortLe (rankLe i) ((boundFilter i corpus).filter (tier1Match i)) := h
    exact (List.mem_filter.mp ((mem_sortLe _ _ _).mp h2)).1
  · rw [if_neg h1] at h
    by_cases h2 : (boundFilter i corpus).filter (tier2Match i) ≠ []
    · rw [if_pos h2] at h
      have h3 : r ∈ sortLe (rankLe i) ((boundFilter i corpus).filter (tier2Match i)) := h
      exact (List.mem_filter.mp ((mem_sortLe _ _ _).mp h3)).1
    · rw [if_neg h2] at h
      by_cases h3 : i.include_tags ≠ []
      · rw [if_pos h3] at h
        have h4 : r ∈ sortLe (rankLe i) (boundFilter i corpus) := h
        exact (mem_sortLe _ _ _).mp h4
      · rw [if_neg h3] at h
        exact absurd (show r ∈ ([] : List HillRecord) from h) (by simp)

theorem locationPresent_iff (i : QueryIntent) :
    locationPresent i = true ↔ ∃ s, i.location = some s ∧ s ≠ "" := by
  cases hl : i.location with
  | none => simp [locationPresent, hl]
  | some s => simp [locationPresent, hl]

theorem route_eq_locationRanked (i : QueryIntent) :
    route i = .locationRanked ↔ locationPresent i = true := by
  unfold route
  by_cases h : locationPresent i = true
  · simp [h]
  · simp [h]

theorem route_eq_lexical (i : QueryIntent) :
    route i = .lexical ↔ locationPresent i = false := by
  unfold route
  by_cases h : locationPresent i = true
  · simp [h]
  · simp [h, Bool.eq_false_iff]

/-- C1: the Query Router dispatches to the Location-Ranked engine exactly
when the intent's location is present and non-empty, and to the Lexical/Tag
engine otherwise; the decision depends on nothing but the location field,
and `runSearch` follows it. -/
theorem c1_router_pure_dispatch (i : QueryIntent) :
    (route i = .locationRanked ↔ ∃ s, i.location = some s ∧ s ≠ "")
    ∧ (route i = .lexical ↔ ¬∃ s, i.location = some s ∧ s ≠ "")
    ∧ (∀ j : QueryIntent, i.location = j.location → route i = route j)
    ∧ (∀ geocode corpus,
        (locationPresent i = true →
          runSearch geocode corpus i = search_by_location_core geocode corpus i)
        ∧ (locationPresent i = false →
          runSearch geocode corpus i = search_core corpus i)) := by
  refine ⟨?_, ?_, ?_, ?_⟩
  · rw [route_eq_locationRanked, locationPresent_iff]
  · rw [route_eq_lexical, ← locationPresent_iff i]
    simp
  · intro j hj
    unfold route locationPresent
    rw [hj]
  · intro geocode corpus
    constructor
    · intro h
      unfold runSearch route
      rw [if_pos h]
    · intro h
      unfold runSearch route
      rw [if_neg (by simp [h])]

/-- Witness for C1: an intent locating `Glen Coe` routes to the
location-ranked engine; an empty intent routes to the lexical engine. -/
theorem c1_router_pure_dispatch_witness :
    route ({ location := some "Glen Coe" } : QueryIntent) = Engine.locationRanked
    ∧ route ({} : QueryIntent) = Engine.lexical := by
  constructor
  · exact (c1_router_pure_dispatch _).1.mpr ⟨"Glen Coe", rfl, by decide⟩
  · refine (c1_router_pure_dispatch _).2.1.mpr ?_
    rintro ⟨s, hs, _⟩
    exact Option.noConfusion hs

/-- C2: when a present, non-empty location fails to geocode, the request is
answered by the Lexical/Tag engine on the location-stripped intent, the
trace records the fallback, and the request handler still returns a normal
(non-error) response. -/
theorem c2_geocode_failure_fallback (geocode : String → Option (ℚ × ℚ))
    (corpus : List HillRecord) (i : QueryIntent) (loc : String)
    (hloc : i.location = some loc) (hne : loc ≠ "") (hfail : geocode loc = none) :
    (runSearch geocode corpus i).trace.engine = .lexical
    ∧ (runSearch geocode corpus i).trace.fallback = true
    ∧ (runSearch geocode corpus i).records =
        (search_core corpus (stripLocation i)).records
    ∧ isOkE (handleRequest geocode corpus i) = true := by
  have hlp : locationPresent i = true := by
    unfold locationPresent
    rw [hloc]
    exact decide_eq_true hne
  have hsb : search_by_location_core geocode corpus i =
      ⟨(search_core corpus (stripLocation i)).records,
        ⟨.lexical, (search_core corpus (stripLocation i)).trace.tier, true,
          (search_core corpus (stripLocation i)).trace.executed⟩⟩ := by
    unfold search_by_location_core
    split
    · next heq =>
      rw [hloc] at heq
      exact Option.noConfusion heq
    · next loc2 heq =>
      have hl2 : loc2 = loc := by
        rw [hloc] at heq
        exact (Option.some.inj heq).symm
      subst hl2
      split
      · next c0 hgeo =>
        rw [hfail] at hgeo
        exact Option.noConfusion hgeo
      · next hgeo => rfl
  have hrun : runSearch geocode corpus i =
      ⟨(search_core corpus (stripLocation i)).records,
        ⟨.lexical, (search_core corpus (stripLocation i)).trace.tier, true,
          (search_core corpus (stripLocation i)).trace.executed⟩⟩ := by
    unfold runSearch route
    rw [if_pos hlp]
    exact hsb
  rw [hrun]
  exact ⟨rfl, rfl, rfl, rfl⟩

/-- Witness for C2: with a geocoder that resolves nothing, the intent for
`Glen Coe` falls back to the lexical engine with the trace marked. -/
theorem c2_geocode_failure_fallback_witness :
    (runSearch (fun _ => none) [] ({ location := some "Glen Coe" } : QueryIntent)).trace.engine
        = Engine.lexical
    ∧ (runSearch (fun _ => none) [] ({ location := some "Glen Coe" } : QueryIntent)).trace.fallback
        = true := by
  have h := c2_geocode_failure_fallback (fun _ => none) []
    ({ location := some "Glen Coe" } : QueryIntent) "Glen Coe" rfl (by decide) rfl
  exact ⟨h.1, h.2.1⟩

/-- C3: every record returned by the Lexical/Tag engine satisfies every
hard numeric bound of the originating intent — non-conforming candidates
are excluded outright. -/
theorem c3_lexical_hard_bounds (corpus : List HillRecord) (i : QueryIntent)
    (r : HillRecord) (hmem : r ∈ (search_core corpus i).records) :
    passesBounds i r = true
    ∧ (∀ q, i.distance_min_km = some q → q ≤ r.distance)
    ∧ (∀ q, i.distance_max_km = some q → r.distance ≤ q)
    ∧ (∀ q, i.time_min_h = some q → q ≤ r.time)
    ∧ (∀ q, i.time_max_h = some q → r.time ≤ q)
    ∧ (∀ q, i.grade_min = some q → q ≤ r.grade)
    ∧ (∀ q, i.grade_max = some q → r.grade ≤ q)
    ∧ (∀ q, i.bog_min = some q → q ≤ r.bog)
    ∧ (∀ q, i.bog_max = some q → r.bog ≤ q) := by
  have hb := (List.mem_filter.mp (mem_search_core_boundFilter hmem)).2
  rw [Bool.and_eq_true] at hb
  have hpb := hb.1
  obtain ⟨⟨⟨hd, ht⟩, hg⟩, hbog⟩ :
      ((withinBound r.distance i.distance_min_km i.distance_max_km = true
        ∧ withinBound r.time i.time_min_h i.time_max_h = true)
        ∧ withinBound r.grade i.grade_min i.grade_max = true)
        ∧ withinBound r.bog i.bog_min i.bog_max = true := by
    unfold passesBounds at hpb
    simp only [Bool.and_eq_true] at hpb
    exact hpb
  exact ⟨hb.1, (withinBound_le hd).1, (withinBound_le hd).2, (withinBound_le ht).1,
    (withinBound_le ht).2, (withinBound_le hg).1, (withinBound_le hg).2,
    (withinBound_le hbog).1, (withinBound_le hbog).2⟩

/-- Witness for C3: a concrete corpus and a `time_max_h = 6` intent — the
returned record is in the result and its time is within the bound. -/
theorem c3_lexical_hard_bounds_witness :
    (⟨1, "Ben", "", "", 10, 5, 3, 2, [], none⟩ : HillRecord) ∈
      (search_core [⟨1, "Ben", "", "", 10, 5, 3, 2, [], none⟩]
        ({ time_max_h := some 6 } : QueryIntent)).records
    ∧ (⟨1, "Ben", "", "", 10, 5, 3, 2, [], none⟩ : HillRecord).time ≤ 6 := by
  have hmem : (⟨1, "Ben", "", "", 10, 5, 3, 2, [], none⟩ : HillRecord) ∈
      (search_core [⟨1, "Ben", "", "", 10, 5, 3, 2, [], none⟩]
        ({ time_max_h := some 6 } : QueryIntent)).records := by decide
  have h := c3_lexical_hard_bounds _ _ _ hmem
  exact ⟨hmem, h.2.2.2.2.1 6 rfl⟩

/-- C4: the tag sanitation policy returns a deduplicated set of normalized
(trimmed, lowercased) tokens that is a subset of the ontology, and discards
the collection entirely (empty set plus warning) whenever the intersected
result exceeds 70% of the ontology — in particular whenever it covers 90%
of a non-empty ontology. -/
theorem c4_tag_sanitation (ontology raw : List String) :
    (∀ t ∈ (sanitizeTags ontology raw).1, t ∈ ontology)
    ∧ (sanitizeTags ontology raw).1.Nodup
    ∧ (∀ t ∈ (sanitizeTags ontology raw).1, ∃ s ∈ raw, t = normalizeTag s)
    ∧ (10 * (intersectOntology ontology raw).length > 7 * ontology.length →
        (sanitizeTags ontology raw).1 = [] ∧ (sanitizeTags ontology raw).2 = true)
    ∧ (ontology ≠ [] →
        10 * (intersectOntology ontology raw).length ≥ 9 * ontology.length →
        (sanitizeTags ontology raw).1 = [] ∧ (sanitizeTags ontology raw).2 = true) := by
  have hsub : ∀ t ∈ intersectOntology ontology raw, t ∈ ontology := by
    intro t ht
    exact of_decide_eq_true (List.mem_filter.mp ht).2
  have hnd : (intersectOntology ontology raw).Nodup := (List.nodup_dedup _).filter _
  have horig : ∀ t ∈ intersectOntology ontology raw, ∃ s ∈ raw, t = normalizeTag s := by
    intro t ht
    have hm := (List.mem_filter.mp ht).1
    rw [List.mem_dedup] at hm
    rcases List.mem_map.mp hm with ⟨s, hs, he⟩
    exact ⟨s, hs, he.symm⟩
  by_cases h : 10 * (intersectOntology ontology raw).length > 7 * ontology.length
  · unfold sanitizeTags
    rw [if_pos h]
    exact ⟨by simp, by simp, by simp, fun _ => ⟨rfl, rfl⟩, fun _ _ => ⟨rfl, rfl⟩⟩
  · unfold sanitizeTags
    rw [if_neg h]
    refine ⟨hsub, hnd, horig, fun hc => absurd hc h, ?_⟩
    intro hne hge
    exfalso
    apply h
    have hpos : 1 ≤ ontology.length := List.length_pos.mpr hne
    omega

/-- Witness for C4: a ten-tag ontology and an external collection covering
nine of its tags (one needing trim/lowercase) is discarded entirely with
the warning flag set. -/
theorem c4_tag_sanitation_witness :
    (sanitizeTags ["a", "b", "c", "d", "e", "f", "g", "h", "i", "j"]
        ["A ", "b", "c", "d", "e", "f", "g", "h", "i"]).1 = []
    ∧ (sanitizeTags ["a", "b", "c", "d", "e", "f", "g", "h", "i", "j"]
        ["A ", "b", "c", "d", "e", "f", "g", "h", "i"]).2 = true := by
  have h := (c4_tag_sanitation ["a", "b", "c", "d", "e", "f", "g", "h", "i", "j"]
    ["A ", "b", "c", "d", "e", "f", "g", "h", "i"]).2.2.2.2
  exact h (by decide) (by decide)

/-- C5: on the phrase `under 6 hours` the deterministic numeric pass fixes
`time_max_h = 6` in the extracted intent, whatever the model call produced
(including when it failed). -/
theorem c5_deterministic_under_six_hours (ontology : List String)
    (modelOut : Option QueryIntent) :
    (extractIntent ontology modelOut "under 6 hours").time_max_h = some 6 := by
  have hd : (detBounds "under 6 hours").time_max = some 6 := by decide
  cases modelOut with
  | none =>
    show (detBounds "under 6 hours").time_max.orElse (fun _ => (none : Option ℚ)) = some 6
    rw [hd]
    rfl
  | some mi =>
    show (detBounds "under 6 hours").time_max.orElse (fun _ => mi.time_max_h) = some 6
    rw [hd]
    rfl

/-- C6: the composer returns at most the effective limit of records; the
limit defaults to 8 when absent, any supplied limit is capped at 20, and
the effective limit never exceeds 20. -/
theorem c6_composer_limit (sr : SearchResult) (i : QueryIntent) :
    (compose sr i).routes.length ≤ effectiveLimit i
    ∧ (i.limit = none → effectiveLimit i = 8)
    ∧ (∀ k, i.limit = some k → effectiveLimit i = min k 20)
    ∧ effectiveLimit i ≤ 20 := by
  refine ⟨?_, ?_, ?_, Nat.min_le_right _ _⟩
  · show ((sr.records.take (effectiveLimit i)).map
      (fun r => (⟨r.id, r.name, some (matchedTags i r)⟩ : RouteLink))).length ≤ effectiveLimit i
    rw [List.length_map, List.length_take]
    exact Nat.min_le_left _ _
  · intro h
    unfold effectiveLimit
    rw [h]
    decide
  · intro k h
    unfold effectiveLimit
    rw [h]
    rfl

/-- Witness for C6: no supplied limit gives the default 8; a supplied limit
of 50 is capped to 20; an empty result respects the bound. -/
theorem c6_composer_limit_witness :
    effectiveLimit ({} : QueryIntent) = 8
    ∧ effectiveLimit ({ limit := some 50 } : QueryIntent) = min 50 20
    ∧ (compose ⟨[], ⟨.lexical, 0, false, ""⟩⟩ ({} : QueryIntent)).routes.length ≤ 8 := by
  have h1 := c6_composer_limit ⟨[], ⟨.lexical, 0, false, ""⟩⟩ ({} : QueryIntent)
  have h2 := c6_composer_limit ⟨[], ⟨.lexical, 0, false, ""⟩⟩
    ({ limit := some 50 } : QueryIntent)
  refine ⟨h1.2.1 rfl, h2.2.2.1 50 rfl, ?_⟩
  have h3 := h1.1
  rwa [h1.2.1 rfl] at h3

/-- C7: every assistant reply travels through a single global
`munro-chat-assistant` event: `ChatTab.submit` dispatches exactly one such
event per fetch outcome, carrying answer, steps and routes on a response,
and the `App` listener appends exactly one assistant message per event. -/
theorem c7_chat_event_messaging (outcome : FetchOutcome) :
    (submitEvents outcome).length = 1
    ∧ (∀ e ∈ submitEvents outcome, e.name = "munro-chat-assistant")
    ∧ (∀ d, outcome = .ok d →
        submitEvents outcome =
          [⟨"munro-chat-assistant",
            ⟨some (processAnswer d.answer), d.steps, some (d.routes.getD [])⟩⟩])
    ∧ (∀ detail msgs,
        assistantHandler detail msgs = msgs ++ [assistantMessageOf detail]
        ∧ (assistantHandler detail msgs).length = msgs.length + 1
        ∧ (assistantMessageOf detail).role = .assistant
        ∧ (assistantMessageOf detail).content = detail.content.getD ""
        ∧ (assistantMessageOf detail).steps = detail.steps
        ∧ (assistantMessageOf detail).routes = detail.routes) := by
  refine ⟨?_, ?_, ?_, ?_⟩
  · cases outcome <;> rfl
  · cases outcome <;> simp [submitEvents]
  · intro d h
    subst h
    rfl
  · intro detail msgs
    exact ⟨rfl, by simp [assistantHandler], rfl, rfl, rfl, rfl⟩

/-- Witness for C7 at concrete outcomes: a successful response produces
exactly the one event with the trimmed answer, steps and routes; a failed
fetch still produces exactly one event. -/
theorem c7_chat_event_messaging_witness :
    submitEvents (.ok ⟨some "  hi  ", some "steps", none⟩) =
      [⟨"munro-chat-assistant", ⟨some "hi", some "steps", some []⟩⟩]
    ∧ (submitEvents (.fail "HTTP 500")).length = 1 := by
  have h := c7_chat_event_messaging (.ok ⟨some "  hi  ", some "steps", none⟩)
  constructor
  · rw [h.2.2.1 _ rfl]
    decide
  · exact (c7_chat_event_messaging (.fail "HTTP 500")).1

/-- C8: `useSelectedGpxUrl` always returns a non-empty URL matching the
`.gpx`/`.xml` extension pattern; an absolute URL or absolute path in
`gpx_file` is returned verbatim exactly when it matches that pattern
(else the fallback), and a relative `gpx_file` is normalized to a
root-relative path under `/gpx_files/` (with `.gpx` appended when no
extension is present, as `normalizeRelGpx` does). -/
theorem c8_useSelectedGpxUrl_wellformed (selected : Option Munro) :
    (useSelectedGpxUrl selected ≠ "" ∧ hasGpxXmlExt (useSelectedGpxUrl selected) = true)
    ∧ ∀ m, selected = some m →
        ((isHttpAbsL (trimL ((m.gpx_file.getD "").data)) = true
            ∨ headIsSlash (trimL ((m.gpx_file.getD "").data)) = true) →
          useSelectedGpxUrl selected =
            if hasExtL (toLowerL (trimL ((m.gpx_file.getD "").data))) then
              String.mk (trimL ((m.gpx_file.getD "").data))
            else FALLBACK_GPX)
        ∧ (trimL ((m.gpx_file.getD "").data) ≠ [] →
            isHttpAbsL (trimL ((m.gpx_file.getD "").data)) = false →
            headIsSlash (trimL ((m.gpx_file.getD "").data)) = false →
            useSelectedGpxUrl selected =
              String.mk ('/' :: normalizeRelGpx (trimL ((m.gpx_file.getD "").data)))
            ∧ "/gpx_files/".data.isPrefixOf
                (toLowerL (useSelectedGpxUrl selected).data) = true) := by
  cases selected with
  | none =>
    refine ⟨⟨by decide, by decide⟩, ?_⟩
    intro m hm
    exact Option.noConfusion hm
  | some m =>
    have hu : useSelectedGpxUrl (some m) =
        (if trimL ((m.gpx_file.getD "").data) = [] then
          (if baseOf m = [] then FALLBACK_GPX
            else String.mk ("/gpx_files/".data ++ baseOf m ++ ".gpx".data))
        else if isHttpAbsL (trimL ((m.gpx_file.getD "").data)) then
          (if hasExtL (toLowerL (trimL ((m.gpx_file.getD "").data))) then
            String.mk (trimL ((m.gpx_file.getD "").data))
          else FALLBACK_GPX)
        else if headIsSlash (trimL ((m.gpx_file.getD "").data)) then
          (if hasExtL (toLowerL (trimL ((m.gpx_file.getD "").data))) then
            String.mk (trimL ((m.gpx_file.getD "").data))
          else FALLBACK_GPX)
        else String.mk ('/' :: normalizeRelGpx (trimL ((m.gpx_file.getD "").data)))) := rfl
    constructor
    · rw [hu]
      by_cases hr : trimL ((m.gpx_file.getD "").data) = []
      · rw [if_pos hr]
        by_cases hb : baseOf m = []
        · rw [if_pos hb]
          exact ⟨by decide, by decide⟩
        · rw [if_neg hb,
            show ("/gpx_files/".data : List Char) = '/' :: "gpx_files/".data by decide,
            List.cons_append, List.cons_append]
          exact mk_slash_wellformed _ (hasExtL_toLowerL_append_gpx _)
      · rw [if_neg hr]
        by_cases hhttp : isHttpAbsL (trimL ((m.gpx_file.getD "").data)) = true
        · rw [if_pos hhttp]
          by_cases hext : hasExtL (toLowerL (trimL ((m.gpx_file.getD "").data))) = true
          · rw [if_pos hext]
            exact ⟨mk_ne_empty hr, hext⟩
          · rw [if_neg hext]
            exact ⟨by decide, by decide⟩
        · rw [if_neg hhttp]
          by_cases hslash : headIsSlash (trimL ((m.gpx_file.getD "").data)) = true
          · rw [if_pos hslash]
            by_cases hext : hasExtL (toLowerL (trimL ((m.gpx_file.getD "").data))) = true
            · rw [if_pos hext]
              exact ⟨mk_ne_empty hr, hext⟩
            · rw [if_neg hext]
              exact ⟨by decide, by decide⟩
          · rw [if_neg hslash]
            exact mk_slash_wellformed _ (hasExtL_toLower_normalizeRel _)
    · intro m2 hm2
      cases hm2
      constructor
      · intro habs
        have hr : trimL ((m.gpx_file.getD "").data) ≠ [] := by
          rcases habs with h | h
          · intro hnil
            rw [hnil] at h
            exact absurd h (by decide)
          · intro hnil
            rw [hnil] at h
            exact absurd h (by decide)
        rw [hu, if_neg hr]
        rcases habs with h | h
        · rw [if_pos h]
        · by_cases hhttp : isHttpAbsL (trimL ((m.gpx_file.getD "").data)) = true
          · rw [if_pos hhttp]
          · rw [if_neg hhttp, if_pos h]
      · intro hr hhttp hslash
        rw [hu, if_neg hr, if_neg (by simp [hhttp]), if_neg (by simp [hslash])]
        refine ⟨rfl, ?_⟩
        show ("/gpx_files/".data).isPrefixOf
          (toLowerL ('/' :: normalizeRelGpx (trimL ((m.gpx_file.getD "").data)))) = true
        apply List.isPrefixOf_iff_prefix.mpr
        have hsl : lowerChar '/' = '/' := by decide
        rw [show toLowerL ('/' :: normalizeRelGpx (trimL ((m.gpx_file.getD "").data))) =
            lowerChar '/' :: toLowerL (normalizeRelGpx (trimL ((m.gpx_file.getD "").data)))
            from rfl,
          hsl, show ("/gpx_files/".data : List Char) = '/' :: "gpx_files/".data by decide]
        exact List.cons_prefix_cons.mpr ⟨rfl, gpxFiles_prefix_normalizeRel _⟩

/-- Witness for C8 at a concrete record: a bare relative value `"foo"` is
normalized to `/gpx_files/foo.gpx`, which matches the extension pattern. -/
theorem c8_useSelectedGpxUrl_wellformed_witness :
    useSelectedGpxUrl (some
      { id := 1, name := "Foo", summary := "", distance := 0, time := 0, grade := 0,
        bog := 0, start := "", gpx_file := some "foo" }) = "/gpx_files/foo.gpx"
    ∧ hasGpxXmlExt "/gpx_files/foo.gpx" = true := by
  have h := c8_useSelectedGpxUrl_wellformed (some
    { id := 1, name := "Foo", summary := "", distance := 0, time := 0, grade := 0,
      bog := 0, start := "", gpx_file := some "foo" })
  have h2 := (h.2 _ rfl).2 (by decide) (by decide) (by decide)
  constructor
  · rw [h2.1]
    decide
  · decide

/-- C10: the dashboard statistics divide every sum by `max(length, 1)`
(the embedding of `munros.length || 1`), hence never by zero; every average
is `0` on the empty list and `total` always equals the list length. -/
theorem c10_stats_divisor_safe (munros : List Munro) :
    jsDivisor munros.length = max munros.length 1
    ∧ (jsDivisor munros.length : ℚ) ≠ 0
    ∧ (stats munros).total = munros.length
    ∧ (munros = [] →
        (stats munros).avgDistance = 0 ∧ (stats munros).avgTime = 0
        ∧ (stats munros).avgGrade = 0 ∧ (stats munros).avgBog = 0) := by
  refine ⟨?_, ?_, rfl, ?_⟩
  · unfold jsDivisor
    split <;> omega
  · have h : jsDivisor munros.length ≠ 0 := by
      unfold jsDivisor
      split <;> omega
    exact_mod_cast h
  · intro h
    subst h
    refine ⟨?_, ?_, ?_, ?_⟩ <;> simp [stats, jsDivisor]

/-- Witness for C10 at the empty list: all four averages are `0`. -/
theorem c10_stats_divisor_safe_witness :
    (stats []).avgDistance = 0 ∧ (stats []).avgTime = 0
    ∧ (stats []).avgGrade = 0 ∧ (stats []).avgBog = 0 :=
  (c10_stats_divisor_safe []).2.2.2 rfl

end MunroScout
